import Mathlib

/-!
Shallow embedding of the query-filtering and temporal-selection logic of
src/server.js: the GET /prices and GET /portfolios request handlers.

Modelling conventions:
- A JavaScript query parameter that may be absent is an Option String;
  JavaScript string truthiness (absent and empty string are falsy) is the
  function truthy below.
- Date parsing (new Date(s) together with the isValidDate check) is an
  explicit parameter parse : String -> Option Int returning the epoch
  timestamp in milliseconds when the string parses, none otherwise.
- Date.prototype.toDateString equality is calendar-day equality, modelled
  as equality of the floor division of the timestamp by the number of
  milliseconds in a day (server local time taken as UTC).
- uuidv4 is modelled as an explicit supply fresh : Nat -> String; the
  handler draws the identifier for the i-th synthesized value from index i.
- new Date().toISOString() at request time is an explicit nowStr argument.
- Array.prototype.sort with the descending-timestamp comparator is
  modelled as insertion sort by the relation tsGE (a stable sort, which a
  compliant JavaScript Array.prototype.sort also is).
- assetIds.split via the comma separator is splitComma, which agrees with
  the JavaScript semantics: empty segments are kept and the empty string
  splits to a single empty segment.
-/

/-- Milliseconds in one calendar day. -/
def msPerDay : Int := 86400000

/-- Calendar day index of an epoch-millisecond instant (floor division,
so negative instants fall on the correct earlier day). -/
def dayOf (t : Int) : Int := t.fdiv msPerDay

/-- Model of JavaScript toDateString equality between two instants. -/
def sameDay (t u : Int) : Bool := dayOf t == dayOf u

/-- A stored historical price record (element of historicalPrices). -/
structure PriceRecord where
  id : String
  asset : String
  price : Int
  timestamp : Int
deriving DecidableEq, Repr

/-- An element of the /prices response: either a stored record (timestamp
present) or a synthesized placeholder (timestamp absent, price 0). -/
structure PriceEntry where
  id : String
  asset : String
  price : Int
  timestamp : Option Int
deriving DecidableEq, Repr

/-- A stored record serialized into the response shape. -/
def PriceRecord.toEntry (p : PriceRecord) : PriceEntry :=
  ⟨p.id, p.asset, p.price, some p.timestamp⟩

/-- A stored position record (element of positions). The asOf field is the
ISO date string the generator produced. -/
structure PositionRecord where
  id : Nat
  asset : String
  quantity : Int
  asOf : String
  price : Int
deriving DecidableEq, Repr

/-- The /portfolios response object. -/
structure PortfolioSnapshot where
  id : String
  asOf : String
  positions : List PositionRecord
deriving DecidableEq, Repr

/-- The error kinds the two handlers can signal (HTTP 400 responses). -/
inductive QueryError where
  | MissingParameter
  | InvalidDate
deriving DecidableEq, Repr

deriving instance DecidableEq for Except

/-- JavaScript truthiness of an optional string parameter: absent and
empty are falsy. -/
def truthy : Option String → Bool
  | none => false
  | some s => !(s == "")

/-- Helper for splitComma, working over the character list. -/
def splitCommaAux : List Char → List (List Char)
  | [] => [[]]
  | c :: rest =>
    let r := splitCommaAux rest
    if c = ',' then [] :: r
    else
      match r with
      | [] => [[c]]
      | g :: gs => (c :: g) :: gs

/-- Model of assetIds.split with separator comma: empty segments are kept,
and the empty string yields one empty segment, as in JavaScript. -/
def splitComma (s : String) : List String :=
  (splitCommaAux s.data).map (fun l => String.mk l)

/-- Descending-timestamp order used by the sort in the reduction step. -/
def tsGE (a b : PriceRecord) : Prop := b.timestamp ≤ a.timestamp

instance : DecidableRel tsGE :=
  fun a b => inferInstanceAs (Decidable (b.timestamp ≤ a.timestamp))

instance : IsTotal PriceRecord tsGE :=
  ⟨fun a b => le_total b.timestamp a.timestamp⟩

instance : IsTrans PriceRecord tsGE :=
  ⟨fun _ _ _ h1 h2 => le_trans h2 h1⟩

/-- The latest-price selection for one requested asset: filter the already
filtered collection to this asset, sort descending by timestamp, take the
head, and if there is none synthesize the placeholder with price 0 and a
fresh identifier. -/
def latestFor (filtered : List PriceRecord) (fresh : Nat → String) (i : Nat)
    (assetId : String) : PriceEntry :=
  match List.insertionSort tsGE (filtered.filter (fun p => p.asset == assetId)) with
  | p :: _ => p.toEntry
  | [] => ⟨fresh i, assetId, 0, none⟩

/-- The inclusive full-precision range filter of the from/to branch. -/
def rangeFilter (f t : Int) (l : List PriceRecord) : List PriceRecord :=
  l.filter (fun p => decide (f ≤ p.timestamp ∧ p.timestamp ≤ t))

/-- The temporal-filter stage of the /prices handler: the range branch
when both from and to are truthy (validating both), else the asOf branch
when asOf is truthy (validating it), else no temporal filter. -/
def filterStage (parse : String → Option Int) (asOf fromP toP : Option String)
    (filtered0 : List PriceRecord) : Except QueryError (List PriceRecord) :=
  if truthy fromP && truthy toP then
    match parse (fromP.getD ""), parse (toP.getD "") with
    | some f, some t => .ok (rangeFilter f t filtered0)
    | _, _ => .error .InvalidDate
  else if truthy asOf then
    match parse (asOf.getD "") with
    | some a => .ok (filtered0.filter (fun p => sameDay p.timestamp a))
    | none => .error .InvalidDate
  else .ok filtered0

/-- The GET /prices handler: require assetIds, split it on commas, filter
the store by membership of the asset name, run the temporal-filter stage,
and finally, whenever asOf is truthy (whether or not the range branch ran),
reduce to one latest entry per requested asset; otherwise return the
filtered collection unchanged. -/
def queryPrices (store : List PriceRecord) (parse : String → Option Int)
    (fresh : Nat → String) (assetIds asOf fromP toP : Option String) :
    Except QueryError (List PriceEntry) :=
  if truthy assetIds = false then .error .MissingParameter
  else
    let requested := splitComma (assetIds.getD "")
    match filterStage parse asOf fromP toP
        (store.filter (fun p => requested.contains p.asset)) with
    | .error e => .error e
    | .ok filtered =>
      if truthy asOf then
        .ok (requested.enum.map (fun ia => latestFor filtered fresh ia.1 ia.2))
      else .ok (filtered.map PriceRecord.toEntry)

/-- The GET /portfolios handler: when asOf is truthy validate it and keep
only positions on the same calendar day, else keep all positions; wrap in
a snapshot whose identifier is fresh and whose asOf echoes the input when
truthy, else the current instant. -/
def queryPortfolio (positions : List PositionRecord) (parse : String → Option Int)
    (fresh : Nat → String) (nowStr : String) (asOf : Option String) :
    Except QueryError PortfolioSnapshot :=
  if truthy asOf then
    match parse (asOf.getD "") with
    | none => .error .InvalidDate
    | some a =>
      .ok ⟨fresh 0, asOf.getD "",
        positions.filter (fun p =>
          match parse p.asOf with
          | some t => sameDay t a
          | none => false)⟩
  else .ok ⟨fresh 0, nowStr, positions⟩

/-! Concrete fixtures used by witnesses and counterexamples. -/

/-- A small store: two records for asset A on day 0 and one for asset B on
day 1. -/
def cStore : List PriceRecord :=
  [⟨"p1", "A", 10, 1000⟩, ⟨"p2", "A", 20, 5000⟩, ⟨"p3", "B", 30, 86400500⟩]

/-- A concrete parse function for the fixtures. -/
def demoParse : String → Option Int := fun s =>
  if s = "day0" then some 2000
  else if s = "day1" then some 86400000
  else if s = "lo" then some 0
  else if s = "hi" then some 10000
  else none

/-- A concrete identifier supply. -/
def demoFresh : Nat → String := fun i => "u" ++ toString i

/-- A second identifier supply, distinct from demoFresh. -/
def demoFresh2 : Nat → String := fun i => "w" ++ toString i

/-- A small position store: one position on day 0 and one on day 1. -/
def cPositions : List PositionRecord :=
  [⟨1, "aid1", 5, "day0", 3⟩, ⟨2, "aid2", 6, "day1", 4⟩]

/-- Erase the only per-request fresh field of a price entry: the
identifier of a synthesized placeholder (stored records keep their
store-determined identifiers). -/
def erasePriceEntry (e : PriceEntry) : PriceEntry :=
  if e.timestamp = none then ⟨"", e.asset, e.price, e.timestamp⟩ else e

/-- Erase the per-request fresh fields of a snapshot: its identifier and
its asOf rendering (the latter is clock-dependent when asOf was absent). -/
def eraseSnap (s : PortfolioSnapshot) : PortfolioSnapshot :=
  ⟨"", "", s.positions⟩

/-! Helper lemmas. -/

lemma toEntry_injective : Function.Injective PriceRecord.toEntry := by
  intro p q h
  cases p
  cases q
  simp_all [PriceRecord.toEntry]

lemma truthy_some_ne (s : String) (hs : s ≠ "") : truthy (some s) = true := by
  simp [truthy, hs]

/-! Claim theorems. -/

/-- Claim C5: queryPrices with assetIds absent or empty fails with
MissingParameter and never returns a list, whatever the other
parameters are. -/
theorem claim_C5 (store : List PriceRecord) (parse : String → Option Int)
    (fresh : Nat → String) (assetIds asOf fromP toP : Option String)
    (h : assetIds = none ∨ assetIds = some "") :
    queryPrices store parse fresh assetIds asOf fromP toP =
      .error .MissingParameter := by
  rcases h with h | h <;> subst h <;> simp [queryPrices, truthy]

theorem claim_C5_witness :
    ((none : Option String) = none ∨ (none : Option String) = some "") ∧
    queryPrices cStore demoParse demoFresh none (some "day0") none none =
      .error .MissingParameter :=
  ⟨Or.inl rfl,
    claim_C5 cStore demoParse demoFresh none (some "day0") none none (Or.inl rfl)⟩

/-- Claim C9: when exactly one of from and to is supplied, no range
filtering happens at all: the call is equivalent to the same call with
neither range parameter. -/
theorem claim_C9 (store : List PriceRecord) (parse : String → Option Int)
    (fresh : Nat → String) (assetIds asOf fromP toP : Option String)
    (h : fromP = none ∨ toP = none) :
    queryPrices store parse fresh assetIds asOf fromP toP =
      queryPrices store parse fresh assetIds asOf none none := by
  rcases h with h | h <;> subst h <;>
    simp [queryPrices, filterStage, truthy]

theorem claim_C9_witness :
    ((some "lo" : Option String) = none ∨ (none : Option String) = none) ∧
    queryPrices cStore demoParse demoFresh (some "A") none (some "lo") none =
      queryPrices cStore demoParse demoFresh (some "A") none none none :=
  ⟨Or.inr rfl,
    claim_C9 cStore demoParse demoFresh (some "A") none (some "lo") none (Or.inr rfl)⟩

/-- Claim C7: with non-empty assetIds and no date parameters, queryPrices
returns exactly the store records whose asset is among the requested
names, in original store order, with no duplicates introduced or
removed. -/
theorem claim_C7 (store : List PriceRecord) (parse : String → Option Int)
    (fresh : Nat → String) (s : String) (hs : s ≠ "") :
    queryPrices store parse fresh (some s) none none none =
      .ok ((store.filter
        (fun p => (splitComma s).contains p.asset)).map PriceRecord.toEntry) ∧
    ∀ out, queryPrices store parse fresh (some s) none none none = .ok out →
      out.Sublist (store.map PriceRecord.toEntry) ∧
      (∀ e ∈ out, ∃ p ∈ store,
        p.toEntry = e ∧ (splitComma s).contains p.asset = true) ∧
      (∀ p ∈ store, (splitComma s).contains p.asset = true → p.toEntry ∈ out) ∧
      (∀ p : PriceRecord, out.count p.toEntry =
        (store.filter (fun q => (splitComma s).contains q.asset)).count p) := by
  have hmain : queryPrices store parse fresh (some s) none none none =
      .ok ((store.filter
        (fun p => (splitComma s).contains p.asset)).map PriceRecord.toEntry) := by
    simp [queryPrices, filterStage, truthy, hs]
  refine ⟨hmain, ?_⟩
  intro out hout
  rw [hmain] at hout
  have hout2 : out = (store.filter
      (fun p => (splitComma s).contains p.asset)).map PriceRecord.toEntry := by
    injection hout.symm
  subst hout2
  refine ⟨List.Sublist.map _ (List.filter_sublist store), ?_, ?_, ?_⟩
  · intro e he
    rcases List.mem_map.mp he with ⟨p, hp, rfl⟩
    rcases List.mem_filter.mp hp with ⟨hpstore, hpc⟩
    exact ⟨p, hpstore, rfl, hpc⟩
  · intro p hp hc
    exact List.mem_map_of_mem _ (List.mem_filter.mpr ⟨hp, hc⟩)
  · intro p
    exact List.count_map_of_injective _ _ toEntry_injective p

theorem claim_C7_witness :
    ("A" : String) ≠ "" ∧
    (queryPrices cStore demoParse demoFresh (some "A") none none none =
      .ok ((cStore.filter
        (fun p => (splitComma "A").contains p.asset)).map PriceRecord.toEntry) ∧
    ∀ out, queryPrices cStore demoParse demoFresh (some "A") none none none = .ok out →
      out.Sublist (cStore.map PriceRecord.toEntry) ∧
      (∀ e ∈ out, ∃ p ∈ cStore,
        p.toEntry = e ∧ (splitComma "A").contains p.asset = true) ∧
      (∀ p ∈ cStore, (splitComma "A").contains p.asset = true → p.toEntry ∈ out) ∧
      (∀ p : PriceRecord, out.count p.toEntry =
        (cStore.filter (fun q => (splitComma "A").contains q.asset)).count p)) :=
  ⟨by decide, claim_C7 cStore demoParse demoFresh "A" (by decide)⟩

/-- Case analysis of latestFor: either no record of the requested asset is
in the filtered collection and the placeholder is synthesized, or the
result is a stored record of that asset with maximal timestamp. -/
lemma latestFor_cases (L : List PriceRecord) (fresh : Nat → String) (i : Nat)
    (a : String) :
    (latestFor L fresh i a = ⟨fresh i, a, 0, none⟩ ∧ ∀ p ∈ L, p.asset ≠ a) ∨
    (∃ p ∈ L, p.asset = a ∧ latestFor L fresh i a = p.toEntry ∧
      ∀ q ∈ L, q.asset = a → q.timestamp ≤ p.timestamp) := by
  cases h : List.insertionSort tsGE (L.filter (fun p => p.asset == a)) with
  | nil =>
    left
    have hperm := List.perm_insertionSort tsGE (L.filter (fun p => p.asset == a))
    rw [h] at hperm
    have hnil : L.filter (fun p => p.asset == a) = [] := hperm.symm.eq_nil
    constructor
    · unfold latestFor
      rw [h]
    · intro p hp hpa
      have : p ∈ L.filter (fun p => p.asset == a) :=
        List.mem_filter.mpr ⟨hp, by simp [hpa]⟩
      rw [hnil] at this
      exact absurd this (List.not_mem_nil p)
  | cons p rest =>
    right
    have hperm := List.perm_insertionSort tsGE (L.filter (fun p => p.asset == a))
    rw [h] at hperm
    have hsorted := List.sorted_insertionSort tsGE (L.filter (fun p => p.asset == a))
    rw [h] at hsorted
    have hpmem : p ∈ L.filter (fun p => p.asset == a) :=
      hperm.mem_iff.mp (List.mem_cons_self p rest)
    rcases List.mem_filter.mp hpmem with ⟨hpL, hpa⟩
    refine ⟨p, hpL, by simpa using hpa, ?_, ?_⟩
    · unfold latestFor
      rw [h]
    · intro q hq hqa
      have hqmem : q ∈ L.filter (fun p => p.asset == a) :=
        List.mem_filter.mpr ⟨hq, by simp [hqa]⟩
      have hqcons : q ∈ p :: rest := hperm.symm.mem_iff.mp hqmem
      rcases List.mem_cons.mp hqcons with hqp | hqrest
      · rw [hqp]
      · exact List.rel_of_sorted_cons hsorted q hqrest

/-- Branch lemma: with non-empty assetIds, a parseable non-empty asOf and
no range parameters, queryPrices reaches the reduction over the day-filtered
asset-filtered store. -/
lemma queryPrices_asOf_eq (store : List PriceRecord) (parse : String → Option Int)
    (fresh : Nat → String) (s aStr : String) (av : Int)
    (hs : s ≠ "") (ha : aStr ≠ "") (hp : parse aStr = some av) :
    queryPrices store parse fresh (some s) (some aStr) none none =
      .ok ((splitComma s).enum.map (fun ia =>
        latestFor ((store.filter (fun p => (splitComma s).contains p.asset)).filter
          (fun p => sameDay p.timestamp av)) fresh ia.1 ia.2)) := by
  simp [queryPrices, filterStage, truthy, hs, ha, hp]

/-- Claim C4: for a valid asOf and non-empty requested list (and no range
parameters, so the asOf filter is the one that ran), the reduced result
has exactly one entry per requested asset in request order; an entry
without timestamp is the placeholder with price 0 synthesized because no
stored record of that asset matches the day, and an entry with a
timestamp is a stored record of that asset on that day with maximal
timestamp among such records. -/
theorem claim_C4 (store : List PriceRecord) (parse : String → Option Int)
    (fresh : Nat → String) (s aStr : String) (av : Int)
    (hs : s ≠ "") (ha : aStr ≠ "") (hp : parse aStr = some av) :
    ∃ out, queryPrices store parse fresh (some s) (some aStr) none none = .ok out ∧
      out.length = (splitComma s).length ∧
      ∀ i (hi : i < (splitComma s).length),
        ∃ ho : i < out.length,
          (out.get ⟨i, ho⟩).asset = (splitComma s).get ⟨i, hi⟩ ∧
          ((out.get ⟨i, ho⟩).timestamp = none →
            out.get ⟨i, ho⟩ = ⟨fresh i, (splitComma s).get ⟨i, hi⟩, 0, none⟩ ∧
            ∀ p ∈ store, p.asset = (splitComma s).get ⟨i, hi⟩ →
              dayOf p.timestamp ≠ dayOf av) ∧
          (∀ u, (out.get ⟨i, ho⟩).timestamp = some u →
            ∃ p ∈ store, p.toEntry = out.get ⟨i, ho⟩ ∧
              p.asset = (splitComma s).get ⟨i, hi⟩ ∧
              dayOf p.timestamp = dayOf av ∧
              ∀ q ∈ store, q.asset = (splitComma s).get ⟨i, hi⟩ →
                dayOf q.timestamp = dayOf av → q.timestamp ≤ p.timestamp) := by
  refine ⟨_, queryPrices_asOf_eq store parse fresh s aStr av hs ha hp, ?_, ?_⟩
  · simp [List.enum_length]
  · intro i hi
    have ho : i < ((splitComma s).enum.map (fun ia =>
        latestFor ((store.filter (fun p => (splitComma s).contains p.asset)).filter
          (fun p => sameDay p.timestamp av)) fresh ia.1 ia.2)).length := by
      simpa [List.enum_length] using hi
    refine ⟨ho, ?_⟩
    have hienum : i < (splitComma s).enum.length := by simpa [List.enum_length] using hi
    have hget : ((splitComma s).enum.map (fun ia =>
        latestFor ((store.filter (fun p => (splitComma s).contains p.asset)).filter
          (fun p => sameDay p.timestamp av)) fresh ia.1 ia.2)).get ⟨i, ho⟩ =
        latestFor ((store.filter (fun p => (splitComma s).contains p.asset)).filter
          (fun p => sameDay p.timestamp av)) fresh i ((splitComma s).get ⟨i, hi⟩) := by
      simp [List.get_eq_getElem, List.getElem_map, List.getElem_enum]
    rw [hget]
    set a := (splitComma s).get ⟨i, hi⟩ with hadef
    set L := (store.filter (fun p => (splitComma s).contains p.asset)).filter
      (fun p => sameDay p.timestamp av) with hLdef
    have hamem : a ∈ splitComma s := List.get_mem (splitComma s) i hi
    have hintoL : ∀ q : PriceRecord,
        q ∈ store → q.asset = a → dayOf q.timestamp = dayOf av → q ∈ L := by
      intro q hqs hqa hqd
      rw [hLdef]
      simp only [List.mem_filter]
      refine ⟨⟨hqs, ?_⟩, ?_⟩
      · rw [hqa]; simpa using hamem
      · simp [sameDay, hqd]
    have hfromL : ∀ q : PriceRecord,
        q ∈ L → q ∈ store ∧ dayOf q.timestamp = dayOf av := by
      intro q hqL
      rw [hLdef] at hqL
      simp only [List.mem_filter] at hqL
      exact ⟨hqL.1.1, by simpa [sameDay] using hqL.2⟩
    rcases latestFor_cases L fresh i a with ⟨heq, hnone⟩ | ⟨p, hpL, hpa, heq, hmax⟩
    · rw [heq]
      refine ⟨rfl, ?_, ?_⟩
      · intro _
        refine ⟨rfl, ?_⟩
        intro p hps hpa hpd
        exact hnone p (hintoL p hps hpa hpd) hpa
      · intro u hu
        exact absurd hu (by simp)
    · rcases hfromL p hpL with ⟨hps, hpd⟩
      rw [heq]
      refine ⟨by simp [PriceRecord.toEntry, hpa], ?_, ?_⟩
      · intro hnone2
        exact absurd hnone2 (by simp [PriceRecord.toEntry])
      · intro u _
        exact ⟨p, hps, rfl, hpa, hpd, fun q hqs hqa hqd =>
          hmax q (hintoL q hqs hqa hqd) hqa⟩

theorem claim_C4_witness :
    ("A,Z" : String) ≠ "" ∧ ("day0" : String) ≠ "" ∧
    demoParse "day0" = some 2000 ∧
    (∃ out, queryPrices cStore demoParse demoFresh (some "A,Z") (some "day0")
        none none = .ok out ∧
      out.length = (splitComma "A,Z").length ∧
      ∀ i (hi : i < (splitComma "A,Z").length),
        ∃ ho : i < out.length,
          (out.get ⟨i, ho⟩).asset = (splitComma "A,Z").get ⟨i, hi⟩ ∧
          ((out.get ⟨i, ho⟩).timestamp = none →
            out.get ⟨i, ho⟩ =
              ⟨demoFresh i, (splitComma "A,Z").get ⟨i, hi⟩, 0, none⟩ ∧
            ∀ p ∈ cStore, p.asset = (splitComma "A,Z").get ⟨i, hi⟩ →
              dayOf p.timestamp ≠ dayOf 2000) ∧
          (∀ u, (out.get ⟨i, ho⟩).timestamp = some u →
            ∃ p ∈ cStore, p.toEntry = out.get ⟨i, ho⟩ ∧
              p.asset = (splitComma "A,Z").get ⟨i, hi⟩ ∧
              dayOf p.timestamp = dayOf 2000 ∧
              ∀ q ∈ cStore, q.asset = (splitComma "A,Z").get ⟨i, hi⟩ →
                dayOf q.timestamp = dayOf 2000 → q.timestamp ≤ p.timestamp)) :=
  ⟨by decide, by decide, by decide,
    claim_C4 cStore demoParse demoFresh "A,Z" "day0" 2000
      (by decide) (by decide) (by decide)⟩

/-- Claim C10: when the requested asset list contains the same name more
than once, the asOf-reduced output has one entry per occurrence, so its
length is the length of the requested list, not the number of distinct
names. -/
theorem claim_C10 (store : List PriceRecord) (parse : String → Option Int)
    (fresh : Nat → String) (s aStr : String) (av : Int)
    (hs : s ≠ "") (ha : aStr ≠ "") (hp : parse aStr = some av)
    (hdup : ¬ (splitComma s).Nodup) :
    ∃ out, queryPrices store parse fresh (some s) (some aStr) none none = .ok out ∧
      out.length = (splitComma s).length ∧
      (splitComma s).dedup.length < (splitComma s).length ∧
      out.length ≠ (splitComma s).dedup.length := by
  have hlt : (splitComma s).dedup.length < (splitComma s).length := by
    have hle : (splitComma s).dedup.length ≤ (splitComma s).length :=
      (List.dedup_sublist _).length_le
    rcases lt_or_eq_of_le hle with hlt | heq2
    · exact hlt
    · exfalso
      have hdd : (splitComma s).dedup = splitComma s :=
        (List.dedup_sublist _).eq_of_length heq2
      apply hdup
      rw [← hdd]
      exact List.nodup_dedup (splitComma s)
  have hlen : ((splitComma s).enum.map (fun ia =>
      latestFor ((store.filter (fun p => (splitComma s).contains p.asset)).filter
        (fun p => sameDay p.timestamp av)) fresh ia.1 ia.2)).length =
      (splitComma s).length := by
    simp [List.enum_length]
  refine ⟨_, queryPrices_asOf_eq store parse fresh s aStr av hs ha hp, hlen, hlt, ?_⟩
  rw [hlen]
  exact ne_of_gt hlt

theorem claim_C10_witness :
    ("A,A" : String) ≠ "" ∧ ("day0" : String) ≠ "" ∧
    demoParse "day0" = some 2000 ∧ ¬ (splitComma "A,A").Nodup ∧
    (∃ out, queryPrices cStore demoParse demoFresh (some "A,A") (some "day0")
        none none = .ok out ∧
      out.length = (splitComma "A,A").length ∧
      (splitComma "A,A").dedup.length < (splitComma "A,A").length ∧
      out.length ≠ (splitComma "A,A").dedup.length) :=
  ⟨by decide, by decide, by decide, by decide,
    claim_C10 cStore demoParse demoFresh "A,A" "day0" 2000
      (by decide) (by decide) (by decide) (by decide)⟩

/-- Membership in the range filter unfolds to the inclusive bounds. -/
lemma mem_rangeFilter {f t : Int} {l : List PriceRecord} {p : PriceRecord} :
    p ∈ rangeFilter f t l ↔ p ∈ l ∧ f ≤ p.timestamp ∧ p.timestamp ≤ t := by
  simp [rangeFilter, List.mem_filter]

/-- Branch lemma: with non-empty assetIds and both range parameters
supplied, non-empty and parseable, queryPrices range-filters, and then
reduces exactly when asOf is truthy. -/
lemma queryPrices_range_eq (store : List PriceRecord) (parse : String → Option Int)
    (fresh : Nat → String) (s fs ts : String) (asOf : Option String) (f t : Int)
    (hs : s ≠ "") (hf : fs ≠ "") (ht : ts ≠ "")
    (hpf : parse fs = some f) (hpt : parse ts = some t) :
    queryPrices store parse fresh (some s) asOf (some fs) (some ts) =
      if truthy asOf = true then
        .ok ((splitComma s).enum.map (fun ia =>
          latestFor (rangeFilter f t
            (store.filter (fun p => (splitComma s).contains p.asset))) fresh ia.1 ia.2))
      else
        .ok ((rangeFilter f t
          (store.filter (fun p => (splitComma s).contains p.asset))).map
            PriceRecord.toEntry) := by
  have hs2 : truthy (some s) = true := truthy_some_ne s hs
  have hf2 : truthy (some fs) = true := truthy_some_ne fs hf
  have ht2 : truthy (some ts) = true := truthy_some_ne ts ht
  simp [queryPrices, filterStage, hs2, hf2, ht2, hpf, hpt]

/-- Claim C8: with both range bounds supplied, valid and in order, every
returned entry that carries a timestamp has it inside the inclusive range;
this holds whether or not asOf additionally triggers the reduction. -/
theorem claim_C8 (store : List PriceRecord) (parse : String → Option Int)
    (fresh : Nat → String) (s fs ts : String) (asOf : Option String) (f t : Int)
    (hs : s ≠ "") (hf : fs ≠ "") (ht : ts ≠ "")
    (hpf : parse fs = some f) (hpt : parse ts = some t) (hft : f ≤ t) :
    ∃ out, queryPrices store parse fresh (some s) asOf (some fs) (some ts) =
        .ok out ∧
      ∀ e ∈ out, ∀ u : Int, e.timestamp = some u → f ≤ u ∧ u ≤ t := by
  have hmain := queryPrices_range_eq store parse fresh s fs ts asOf f t hs hf ht hpf hpt
  cases hA : truthy asOf
  · rw [hA] at hmain
    simp only [Bool.false_eq_true, if_false] at hmain
    refine ⟨_, hmain, ?_⟩
    intro e he u hu
    rcases List.mem_map.mp he with ⟨p, hp, rfl⟩
    rcases mem_rangeFilter.mp hp with ⟨_, hlo, hhi⟩
    have hup : u = p.timestamp := by
      simpa [PriceRecord.toEntry] using hu.symm
    rw [hup]
    exact ⟨hlo, hhi⟩
  · rw [hA] at hmain
    simp only [if_true] at hmain
    refine ⟨_, hmain, ?_⟩
    intro e he u hu
    rcases List.mem_map.mp he with ⟨ia, _, rfl⟩
    rcases latestFor_cases
        (rangeFilter f t (store.filter (fun p => (splitComma s).contains p.asset)))
        fresh ia.1 ia.2 with ⟨heq, _⟩ | ⟨p, hpR, _, heq, _⟩
    · rw [heq] at hu
      exact absurd hu (by simp)
    · rw [heq] at hu
      rcases mem_rangeFilter.mp hpR with ⟨_, hlo, hhi⟩
      have hup : u = p.timestamp := by
        simpa [PriceRecord.toEntry] using hu.symm
      rw [hup]
      exact ⟨hlo, hhi⟩

theorem claim_C8_witness :
    ("A" : String) ≠ "" ∧ ("lo" : String) ≠ "" ∧ ("hi" : String) ≠ "" ∧
    demoParse "lo" = some 0 ∧ demoParse "hi" = some 10000 ∧ (0 : Int) ≤ 10000 ∧
    (∃ out, queryPrices cStore demoParse demoFresh (some "A") none
        (some "lo") (some "hi") = .ok out ∧
      ∀ e ∈ out, ∀ u : Int, e.timestamp = some u → 0 ≤ u ∧ u ≤ 10000) :=
  ⟨by decide, by decide, by decide, by decide, by decide, by decide,
    claim_C8 cStore demoParse demoFresh "A" "lo" "hi" none 0 10000
      (by decide) (by decide) (by decide) (by decide) (by decide) (by decide)⟩

/-- Claim C6: with a valid asOf, queryPortfolio keeps exactly the positions
whose asOf parses to the same calendar day (time of day ignored) and echoes
the input string as the snapshot asOf; with no asOf it returns the full
position collection and stamps the snapshot with the current instant. -/
theorem claim_C6 (positions : List PositionRecord) (parse : String → Option Int)
    (fresh : Nat → String) (nowStr : String) :
    (∀ (s : String) (av : Int), s ≠ "" → parse s = some av →
      ∃ snap, queryPortfolio positions parse fresh nowStr (some s) = .ok snap ∧
        snap.asOf = s ∧
        ∀ p, p ∈ snap.positions ↔
          (p ∈ positions ∧ ∃ u, parse p.asOf = some u ∧ dayOf u = dayOf av)) ∧
    queryPortfolio positions parse fresh nowStr none =
      .ok ⟨fresh 0, nowStr, positions⟩ := by
  constructor
  · intro s av hs hp
    have hs2 : truthy (some s) = true := truthy_some_ne s hs
    refine ⟨⟨fresh 0, s, positions.filter (fun p =>
      match parse p.asOf with
      | some u => sameDay u av
      | none => false)⟩, ?_, rfl, ?_⟩
    · simp [queryPortfolio, hs2, hp]
    · intro p
      simp only [List.mem_filter]
      constructor
      · rintro ⟨hp2, hcond⟩
        cases hpa : parse p.asOf with
        | none =>
          rw [hpa] at hcond
          simp at hcond
        | some u =>
          rw [hpa] at hcond
          exact ⟨hp2, u, rfl, by simpa [sameDay] using hcond⟩
      · rintro ⟨hp2, u, hpu, hd⟩
        refine ⟨hp2, ?_⟩
        rw [hpu]
        simp [sameDay, hd]
  · simp [queryPortfolio, truthy]

theorem claim_C6_witness :
    ("day0" : String) ≠ "" ∧ demoParse "day0" = some 2000 ∧
    (∃ snap, queryPortfolio cPositions demoParse demoFresh "NOW" (some "day0") =
        .ok snap ∧
      snap.asOf = "day0" ∧
      ∀ p, p ∈ snap.positions ↔
        (p ∈ cPositions ∧ ∃ u, demoParse p.asOf = some u ∧ dayOf u = dayOf 2000)) ∧
    queryPortfolio cPositions demoParse demoFresh "NOW" none =
      .ok ⟨demoFresh 0, "NOW", cPositions⟩ :=
  ⟨by decide, by decide,
    (claim_C6 cPositions demoParse demoFresh "NOW").1 "day0" 2000
      (by decide) (by decide),
    (claim_C6 cPositions demoParse demoFresh "NOW").2⟩

/-- Claim C2 counterexample: a price query carrying the unparseable date
string bad as asOf together with a valid complete range succeeds with a
reduced list instead of failing with InvalidDate, and a price query whose
only date parameter is an unparseable lone from also succeeds, returning
the unreduced filtered records. -/
theorem claim_C2_counterexample :
    demoParse "bad" = none ∧
    queryPrices cStore demoParse demoFresh (some "A") (some "bad")
      (some "lo") (some "hi") = .ok [⟨"p2", "A", 20, some 5000⟩] ∧
    queryPrices cStore demoParse demoFresh (some "A") none
      (some "bad") none =
      .ok [⟨"p1", "A", 10, some 1000⟩, ⟨"p2", "A", 20, some 5000⟩] := by
  decide

/-- Claim C2 amended: InvalidDate is raised exactly for the date
parameters the handlers actually validate. When both from and to are
supplied, either being unparseable fails the price query; when asOf is
supplied and from/to are not both supplied, an unparseable asOf fails the
price query; an unparseable supplied asOf always fails the portfolio
query. A lone from or to, and asOf when a complete range is present, are
never validated. -/
theorem claim_C2_amended :
    (∀ (store : List PriceRecord) (parse : String → Option Int)
      (fresh : Nat → String) (assetIds asOf fromP toP : Option String),
      truthy assetIds = true → truthy fromP = true → truthy toP = true →
      (parse (fromP.getD "") = none ∨ parse (toP.getD "") = none) →
      queryPrices store parse fresh assetIds asOf fromP toP =
        .error .InvalidDate) ∧
    (∀ (store : List PriceRecord) (parse : String → Option Int)
      (fresh : Nat → String) (assetIds asOf fromP toP : Option String),
      truthy assetIds = true →
      ¬(truthy fromP = true ∧ truthy toP = true) →
      truthy asOf = true → parse (asOf.getD "") = none →
      queryPrices store parse fresh assetIds asOf fromP toP =
        .error .InvalidDate) ∧
    (∀ (positions : List PositionRecord) (parse : String → Option Int)
      (fresh : Nat → String) (nowStr : String) (asOf : Option String),
      truthy asOf = true → parse (asOf.getD "") = none →
      queryPortfolio positions parse fresh nowStr asOf =
        .error .InvalidDate) := by
  refine ⟨?_, ?_, ?_⟩
  · intro store parse fresh assetIds asOf fromP toP hids hf ht hn
    have hstage : filterStage parse asOf fromP toP
        (store.filter (fun p =>
          (splitComma (assetIds.getD "")).contains p.asset)) =
        .error .InvalidDate := by
      unfold filterStage
      rw [hf, ht]
      simp only [Bool.and_self, if_true]
      rcases hn with hn | hn
      · rw [hn]
      · rw [hn]
        cases parse (fromP.getD "") <;> rfl
    simp only [queryPrices, hids]
    rw [if_neg (by decide : ¬(true = false))]
    rw [hstage]
  · intro store parse fresh assetIds asOf fromP toP hids hft hA hp
    have hband : (truthy fromP && truthy toP) = false := by
      cases hF : truthy fromP <;> cases hT : truthy toP <;> simp_all
    have hstage : filterStage parse asOf fromP toP
        (store.filter (fun p =>
          (splitComma (assetIds.getD "")).contains p.asset)) =
        .error .InvalidDate := by
      unfold filterStage
      rw [hband, hA, hp]
      simp
    simp only [queryPrices, hids]
    rw [if_neg (by decide : ¬(true = false))]
    rw [hstage]
  · intro positions parse fresh nowStr asOf hA hp
    simp [queryPortfolio, hA, hp]

theorem claim_C2_amended_witness :
    truthy (some "A") = true ∧ truthy (some "bad") = true ∧
    truthy (some "hi") = true ∧
    (demoParse "bad" = none ∨ demoParse "hi" = none) ∧
    queryPrices cStore demoParse demoFresh (some "A") none
      (some "bad") (some "hi") = .error .InvalidDate ∧
    ¬(truthy (none : Option String) = true ∧
      truthy (none : Option String) = true) ∧
    demoParse "bad" = none ∧
    queryPrices cStore demoParse demoFresh (some "A") (some "bad")
      none none = .error .InvalidDate ∧
    queryPortfolio cPositions demoParse demoFresh "NOW" (some "bad") =
      .error .InvalidDate :=
  ⟨by decide, by decide, by decide, Or.inl (by decide),
    claim_C2_amended.1 cStore demoParse demoFresh (some "A") none
      (some "bad") (some "hi") (by decide) (by decide) (by decide)
      (Or.inl (by decide)),
    by decide, by decide,
    claim_C2_amended.2.1 cStore demoParse demoFresh (some "A") (some "bad")
      none none (by decide) (by decide) (by decide) (by decide),
    claim_C2_amended.2.2 cPositions demoParse demoFresh "NOW" (some "bad")
      (by decide) (by decide)⟩

/-- Claim C1 counterexample: a price query with a valid complete range and
a supplied asOf does NOT return the filtered-but-unreduced collection: the
range keeps two records of asset A, yet the response is the single reduced
latest entry, because the reduction step tests only the presence of
asOf. -/
theorem claim_C1_counterexample :
    queryPrices cStore demoParse demoFresh (some "A") (some "day0")
      (some "lo") (some "hi") = .ok [⟨"p2", "A", 20, some 5000⟩] ∧
    (rangeFilter 0 10000 (cStore.filter
      (fun p => (splitComma "A").contains p.asset))).map PriceRecord.toEntry =
      [⟨"p1", "A", 10, some 1000⟩, ⟨"p2", "A", 20, some 5000⟩] ∧
    ([⟨"p2", "A", 20, some 5000⟩] : List PriceEntry) ≠
      [⟨"p1", "A", 10, some 1000⟩, ⟨"p2", "A", 20, some 5000⟩] := by
  decide

/-- Claim C1 amended: when a complete from/to range and asOf are both
supplied, the range filter runs, asOf is not validated, and the
latest-per-asset reduction is still applied afterwards, because the
reduction is keyed on the presence of asOf alone; the filtered but
unreduced collection is returned when asOf is absent. -/
theorem claim_C1_amended (store : List PriceRecord) (parse : String → Option Int)
    (fresh : Nat → String) (s fs ts aStr : String) (f t : Int)
    (hs : s ≠ "") (hf : fs ≠ "") (ht : ts ≠ "") (ha : aStr ≠ "")
    (hpf : parse fs = some f) (hpt : parse ts = some t) :
    queryPrices store parse fresh (some s) (some aStr) (some fs) (some ts) =
      .ok ((splitComma s).enum.map (fun ia =>
        latestFor (rangeFilter f t
          (store.filter (fun p => (splitComma s).contains p.asset)))
          fresh ia.1 ia.2)) ∧
    queryPrices store parse fresh (some s) none (some fs) (some ts) =
      .ok ((rangeFilter f t
        (store.filter (fun p => (splitComma s).contains p.asset))).map
          PriceRecord.toEntry) := by
  constructor
  · have hmain := queryPrices_range_eq store parse fresh s fs ts (some aStr)
      f t hs hf ht hpf hpt
    rw [truthy_some_ne aStr ha] at hmain
    simpa using hmain
  · have hmain := queryPrices_range_eq store parse fresh s fs ts none
      f t hs hf ht hpf hpt
    simpa [truthy] using hmain

theorem claim_C1_amended_witness :
    ("A" : String) ≠ "" ∧ ("lo" : String) ≠ "" ∧ ("hi" : String) ≠ "" ∧
    ("day0" : String) ≠ "" ∧
    demoParse "lo" = some 0 ∧ demoParse "hi" = some 10000 ∧
    (queryPrices cStore demoParse demoFresh (some "A") (some "day0")
        (some "lo") (some "hi") =
      .ok ((splitComma "A").enum.map (fun ia =>
        latestFor (rangeFilter 0 10000
          (cStore.filter (fun p => (splitComma "A").contains p.asset)))
          demoFresh ia.1 ia.2)) ∧
    queryPrices cStore demoParse demoFresh (some "A") none
        (some "lo") (some "hi") =
      .ok ((rangeFilter 0 10000
        (cStore.filter (fun p => (splitComma "A").contains p.asset))).map
          PriceRecord.toEntry)) :=
  ⟨by decide, by decide, by decide, by decide, by decide, by decide,
    claim_C1_amended cStore demoParse demoFresh "A" "lo" "hi" "day0" 0 10000
      (by decide) (by decide) (by decide) (by decide) (by decide) (by decide)⟩

/-- Claim C3 counterexample: two runs of each query on the same store and
the same request parameters, differing only in the identifiers drawn from
the uuid generator, produce different responses: the portfolio snapshot
identifier and the placeholder identifier change between runs. -/
theorem claim_C3_counterexample :
    queryPortfolio cPositions demoParse demoFresh "NOW" none =
      .ok ⟨"u0", "NOW", cPositions⟩ ∧
    queryPortfolio cPositions demoParse demoFresh2 "NOW" none =
      .ok ⟨"w0", "NOW", cPositions⟩ ∧
    (Except.ok (⟨"u0", "NOW", cPositions⟩ : PortfolioSnapshot) :
      Except QueryError PortfolioSnapshot) ≠ .ok ⟨"w0", "NOW", cPositions⟩ ∧
    queryPrices cStore demoParse demoFresh (some "Z") (some "day0")
      none none = .ok [⟨"u0", "Z", 0, none⟩] ∧
    queryPrices cStore demoParse demoFresh2 (some "Z") (some "day0")
      none none = .ok [⟨"w0", "Z", 0, none⟩] ∧
    (Except.ok ([⟨"u0", "Z", 0, none⟩] : List PriceEntry) :
      Except QueryError (List PriceEntry)) ≠ .ok [⟨"w0", "Z", 0, none⟩] := by
  decide

/-- Erasing the placeholder identifier makes the per-asset reduction
independent of the identifier supply. -/
lemma erase_latestFor (L : List PriceRecord) (f1 f2 : Nat → String) (i : Nat)
    (a : String) :
    erasePriceEntry (latestFor L f1 i a) = erasePriceEntry (latestFor L f2 i a) := by
  unfold latestFor
  cases List.insertionSort tsGE (L.filter (fun p => p.asset == a)) with
  | nil => simp [erasePriceEntry]
  | cons p rest => rfl

/-- Claim C3 amended: for fixed store and fixed request parameters the two
query functions are deterministic in everything except the per-request
fresh fields: after erasing placeholder identifiers the price response is
identical across runs, and after erasing the snapshot identifier and asOf
rendering the portfolio response is identical across runs; moreover when
asOf is supplied the snapshot asOf itself is already deterministic (it
echoes the input), so only an absent asOf makes the snapshot asOf
clock-dependent. -/
theorem claim_C3_amended (store : List PriceRecord)
    (positions : List PositionRecord) (parse : String → Option Int)
    (f1 f2 : Nat → String) (n1 n2 : String)
    (assetIds asOf fromP toP : Option String) :
    (queryPrices store parse f1 assetIds asOf fromP toP).map
        (List.map erasePriceEntry) =
      (queryPrices store parse f2 assetIds asOf fromP toP).map
        (List.map erasePriceEntry) ∧
    (queryPortfolio positions parse f1 n1 asOf).map eraseSnap =
      (queryPortfolio positions parse f2 n2 asOf).map eraseSnap ∧
    (truthy asOf = true →
      (queryPortfolio positions parse f1 n1 asOf).map PortfolioSnapshot.asOf =
        (queryPortfolio positions parse f2 n2 asOf).map PortfolioSnapshot.asOf) := by
  refine ⟨?_, ?_, ?_⟩
  · cases hids : truthy assetIds with
    | false => simp [queryPrices, hids]
    | true =>
      simp only [queryPrices, hids]
      rw [if_neg (by decide : ¬(true = false)),
        if_neg (by decide : ¬(true = false))]
      cases hFS : filterStage parse asOf fromP toP
          (store.filter (fun p =>
            (splitComma (assetIds.getD "")).contains p.asset)) with
      | error e => rfl
      | ok filtered =>
        cases hA : truthy asOf with
        | false => rfl
        | true =>
          have hlist : ((splitComma (assetIds.getD "")).enum.map
                (fun ia => latestFor filtered f1 ia.1 ia.2)).map erasePriceEntry =
              ((splitComma (assetIds.getD "")).enum.map
                (fun ia => latestFor filtered f2 ia.1 ia.2)).map erasePriceEntry := by
            rw [List.map_map, List.map_map]
            exact List.map_congr_left
              (fun ia _ => erase_latestFor filtered f1 f2 ia.1 ia.2)
          exact congrArg Except.ok hlist
  · cases hA : truthy asOf with
    | false => simp [queryPortfolio, hA, eraseSnap, Except.map]
    | true =>
      cases hP : parse (asOf.getD "") with
      | none => simp [queryPortfolio, hA, hP, Except.map]
      | some a => simp [queryPortfolio, hA, hP, eraseSnap, Except.map]
  · intro hA
    cases hP : parse (asOf.getD "") with
    | none => simp [queryPortfolio, hA, hP, Except.map]
    | some a => simp [queryPortfolio, hA, hP, Except.map]

theorem claim_C3_amended_witness :
    ((queryPrices cStore demoParse demoFresh (some "Z") (some "day0")
        none none).map (List.map erasePriceEntry) =
      (queryPrices cStore demoParse demoFresh2 (some "Z") (some "day0")
        none none).map (List.map erasePriceEntry)) ∧
    ((queryPortfolio cPositions demoParse demoFresh "NOW1" (some "day0")).map
        eraseSnap =
      (queryPortfolio cPositions demoParse demoFresh2 "NOW2" (some "day0")).map
        eraseSnap) ∧
    truthy (some "day0") = true ∧
    ((queryPortfolio cPositions demoParse demoFresh "NOW1"
        (some "day0")).map PortfolioSnapshot.asOf =
      (queryPortfolio cPositions demoParse demoFresh2 "NOW2"
        (some "day0")).map PortfolioSnapshot.asOf) :=
  ⟨(claim_C3_amended cStore cPositions demoParse demoFresh demoFresh2
      "NOW1" "NOW2" (some "Z") (some "day0") none none).1,
    (claim_C3_amended cStore cPositions demoParse demoFresh demoFresh2
      "NOW1" "NOW2" (some "Z") (some "day0") none none).2.1,
    by decide,
    (claim_C3_amended cStore cPositions demoParse demoFresh demoFresh2
      "NOW1" "NOW2" (some "Z") (some "day0") none none).2.2 (by decide)⟩
